import Mathlib

/-!
# Verification of the nova-sonic-voice audio and session layer

A shallow embedding of the audio-format conversion utilities
(`src/nova_sonic/audio.py`) and of the streaming-session state machine
(`src/nova_sonic/session.py`) of the nova-sonic-voice repository, with
theorems settling the specification claims about them.

Modelling conventions:
* Python `bytes` values are `List (Fin 256)`.
* `struct.unpack("<Nh", data)` demands `len(data) == 2*N` exactly and raises
  `struct.error` otherwise; functions that can hit that raise return `Option`,
  with `none` standing for the raised exception.
* Python ints are `Int`; Python `//` (floor division) is `Int.fdiv`;
  Python `int(x)` applied to a non-negative or negative real truncates toward
  zero, modelled by `ratTrunc`.
* Python `float` arithmetic inside the resamplers is idealised as exact
  rational arithmetic (`ℚ`).  This is the one deliberate idealisation of the
  embedding; it is exact for the sample-rate pairs the system uses
  (48000/16000, 24000/48000 and equal rates) but Python's binary64 division
  can differ from exact arithmetic for extreme rate ratios.
* `uuid.uuid4()` is modelled as a freshness supply: a strictly increasing
  counter, so every identifier ever issued is smaller than the counter.
* `time.time()` readings are opaque external inputs, passed as explicit `Int`
  parameters.
* `asyncio` task scheduling, cancellation, and the `asyncio.Event` pulse are
  not modelled; the state mutations the coroutines perform are modelled as
  pure state transformers, and events written to a stream are accumulated in
  an explicit `sent` log.
-/

namespace NovaSonic

/-- A single byte, as found in a Python `bytes` object. -/
abbrev Byte := Fin 256

/-- Decode one little-endian signed 16-bit sample from two bytes, as
`struct.unpack("<h", …)` does. -/
def bytesToI16 (lo hi : Byte) : Int :=
  let v : Nat := lo.val + 256 * hi.val
  if v < 32768 then (v : Int) else (v : Int) - 65536

/-- Decode a byte string of even length into its list of little-endian signed
16-bit samples, as `struct.unpack(f"<{n}h", data)` does.  (Callers check the
exact-length requirement of `struct.unpack`; a trailing odd byte never reaches
this helper.) -/
def unpackSamples : List Byte → List Int
  | lo :: hi :: rest => bytesToI16 lo hi :: unpackSamples rest
  | _ => []

/-- Encode one signed 16-bit sample as two little-endian bytes, as
`struct.pack("<h", v)` does.  For values in `[-32768, 32767]` — the only
values the repository ever packs — this agrees with `struct.pack`; the
two's-complement wrap-around makes it total. -/
def i16ToBytes (v : Int) : List Byte :=
  let u : Nat := (v % 65536).toNat
  [⟨u % 256, by omega⟩, ⟨u / 256 % 256, by omega⟩]

/-- Encode a list of signed 16-bit samples as a little-endian byte string, as
`struct.pack(f"<{n}h", *samples)` does. -/
def packSamples (samples : List Int) : List Byte :=
  (samples.map i16ToBytes).flatten

/-- Python's floor division `a // b` on integers. -/
def pyFloorDiv (a b : Int) : Int := Int.fdiv a b

/-- Python's `int(x)` on a rational value: truncation toward zero. -/
def ratTrunc (q : ℚ) : Int := Int.tdiv q.num (q.den : Int)

/-- The channel-averaging loop of `stereo_to_mono`:
`for i in range(0, len(stereo), 2): mono.append((stereo[i] + stereo[i+1]) // 2)`.
The input always has even length there (it is `2 * n_frames` samples). -/
def avgPairs : List Int → List Int
  | a :: b :: rest => pyFloorDiv (a + b) 2 :: avgPairs rest
  | _ => []

/-- `audio.stereo_to_mono`: trim the input to a whole number of 4-byte stereo
frames, then average each interleaved L/R pair with floor division.  Total:
after the trim the `struct.unpack` length requirement always holds. -/
def stereo_to_mono (pcm_data : List Byte) : List Byte :=
  let data := pcm_data.take (pcm_data.length - pcm_data.length % 4)
  if data = [] then []
  else packSamples (avgPairs (unpackSamples data))

/-- `audio.mono_to_stereo`: duplicate each mono sample into both channels.
`none` models the `struct.error` raised by `struct.unpack` when the input's
byte length is odd (the length check in the format string is exact). -/
def mono_to_stereo (pcm_data : List Byte) : Option (List Byte) :=
  if pcm_data = [] then some []
  else if pcm_data.length % 2 ≠ 0 then none
  else
    let samples := unpackSamples pcm_data
    some (packSamples ((samples.map (fun s => [s, s])).flatten))

/-- `audio.downsample_linear`: linear-interpolation resampling.  `none` models
the `struct.error` raised on a sample-unaligned (odd-length) input; the float
arithmetic is idealised as exact rationals (see the header).  Rates are
positive in every use; at `dst_rate = 0` Python would raise
`ZeroDivisionError`, while here division by zero yields junk — all theorems
assume positive rates. -/
def downsample_linear (pcm_data : List Byte) (src_rate dst_rate : Nat) :
    Option (List Byte) :=
  if src_rate = dst_rate then some pcm_data
  else if pcm_data = [] then some []
  else if pcm_data.length % 2 ≠ 0 then none
  else
    let n_samples := pcm_data.length / 2
    let samples := unpackSamples pcm_data
    let ratio : ℚ := (src_rate : ℚ) / (dst_rate : ℚ)
    let out_len : Int := ratTrunc ((n_samples : ℚ) / ratio)
    if out_len = 0 then some []
    else
      some (packSamples ((List.range out_len.toNat).map (fun (i : Nat) =>
        let src_pos : ℚ := (i : ℚ) * ratio
        let idx : Nat := (ratTrunc src_pos).toNat
        let frac : ℚ := src_pos - (idx : ℚ)
        let val : ℚ :=
          if idx + 1 < n_samples then
            (samples.getD idx 0 : ℚ) * (1 - frac) +
              (samples.getD (idx + 1) 0 : ℚ) * frac
          else (samples.getD idx 0 : ℚ)
        max (-32768) (min 32767 (ratTrunc val)))))

/-- `audio.upsample_linear`: token-for-token the same algorithm as
`downsample_linear` (the Python bodies are identical up to comments). -/
def upsample_linear (pcm_data : List Byte) (src_rate dst_rate : Nat) :
    Option (List Byte) :=
  if src_rate = dst_rate then some pcm_data
  else if pcm_data = [] then some []
  else if pcm_data.length % 2 ≠ 0 then none
  else
    let n_samples := pcm_data.length / 2
    let samples := unpackSamples pcm_data
    let ratio : ℚ := (src_rate : ℚ) / (dst_rate : ℚ)
    let out_len : Int := ratTrunc ((n_samples : ℚ) / ratio)
    if out_len = 0 then some []
    else
      some (packSamples ((List.range out_len.toNat).map (fun (i : Nat) =>
        let src_pos : ℚ := (i : ℚ) * ratio
        let idx : Nat := (ratTrunc src_pos).toNat
        let frac : ℚ := src_pos - (idx : ℚ)
        let val : ℚ :=
          if idx + 1 < n_samples then
            (samples.getD idx 0 : ℚ) * (1 - frac) +
              (samples.getD (idx + 1) 0 : ℚ) * frac
          else (samples.getD idx 0 : ℚ)
        max (-32768) (min 32767 (ratTrunc val)))))

/-- The slicing loop of `chunk_audio`:
`for offset in range(0, len(pcm_data), size): yield pcm_data[offset:offset+size]`,
for a positive `size`. -/
def chunkGo (size : Nat) (data : List Byte) : List (List Byte) :=
  if size = 0 then []
  else if data = [] then []
  else data.take size :: chunkGo size (data.drop size)
termination_by data.length
decreasing_by
  rename_i h0 h1
  simp only [List.length_drop]
  cases data with
  | nil => exact absurd rfl h1
  | cons a l => simp only [List.length_cons]; omega

/-- `audio.chunk_audio`: the (fully materialised) sequence of consecutive
`chunk_size_bytes`-sized slices.  `none` models the `ValueError` that
`range(0, n, 0)` raises when the chunk size is zero. -/
def chunk_audio (pcm_data : List Byte) (chunk_size_bytes : Nat) :
    Option (List (List Byte)) :=
  if chunk_size_bytes = 0 then none
  else some (chunkGo chunk_size_bytes pcm_data)

/-! ## Session model (`src/nova_sonic/session.py`) -/

/-- `session.MAX_HISTORY_TURNS`. -/
def MAX_HISTORY_TURNS : Nat := 10

/-- `session.ConversationTurn` (a mutable dataclass in the source; the
timestamp is an opaque `time.time()` reading). -/
structure ConversationTurn where
  role : String
  text : String
  timestamp : Int
deriving DecidableEq, Repr

/-- `session.SessionState`. -/
inductive SessionState where
  | idle
  | connecting
  | active
  | reconnecting
  | closing
  | closed
deriving DecidableEq, Repr

/-- `session.SessionMetrics`. -/
structure SessionMetrics where
  sessionStartTime : Int := 0
  eventsReceived : Nat := 0
  audioChunksSent : Nat := 0
  audioChunksReceived : Nat := 0
  turnsCompleted : Nat := 0
  reconnections : Nat := 0
deriving DecidableEq, Repr

/-- A JSON event written to the outbound stream (`_send_event` payloads plus
the final `input_stream.close()`).  Protocol identifiers are the `Nat` tokens
of the freshness supply that models `uuid.uuid4()`. -/
inductive OutEvent where
  | sessionStart
  | promptStart (promptName : Nat)
  | contentStartText (promptName contentName : Nat)
  | textInput (promptName contentName : Nat) (content : String)
  | contentEnd (promptName contentName : Nat)
  | contentStartAudio (promptName contentName : Nat)
  | audioInput (promptName contentName : Nat) (content : List Byte)
  | promptEnd (promptName : Nat)
  | sessionEnd
  | streamClose
deriving DecidableEq, Repr

/-- The mutable state of a `session.NovaSonicSession` object.  `systemPrompt`
is the (immutable) `config.system_prompt`; `uuidCounter` is the freshness
supply modelling `uuid.uuid4()`; `sent` is the chronological log of events
written to whichever stream was open at the time; `audioOutputQueue` models
`_audio_output_queue`. -/
structure Session where
  systemPrompt : String
  state : SessionState := .idle
  metrics : SessionMetrics := {}
  promptName : Nat := 0
  systemContentName : Nat := 0
  audioContentName : Nat := 0
  history : List ConversationTurn := []
  currentUserText : String := ""
  currentAssistantText : String := ""
  shouldReconnect : Bool := false
  audioOutputQueue : List (List Byte) := []
  uuidCounter : Nat := 1
  sent : List OutEvent := []
deriving DecidableEq, Repr

/-- `NovaSonicSession._open_stream`: generate three fresh protocol
identifiers and send the fixed handshake sequence (sessionStart, promptStart,
the short-lived SYSTEM text block carrying `system_prompt`, and the
long-lived interactive USER audio block). -/
def openStream (s : Session) (system_prompt : String) : Session :=
  let p := s.uuidCounter
  let sc := s.uuidCounter + 1
  let ac := s.uuidCounter + 2
  { s with
    promptName := p
    systemContentName := sc
    audioContentName := ac
    uuidCounter := s.uuidCounter + 3
    sent := s.sent ++
      [.sessionStart, .promptStart p, .contentStartText p sc,
       .textInput p sc system_prompt, .contentEnd p sc,
       .contentStartAudio p ac] }

/-- Python's `str.strip()` (with no argument): remove leading and trailing
whitespace.  Written over the character list so that it reduces in the
kernel; the whitespace set is ASCII (all the repository ever strips). -/
def pyStrip (s : String) : String :=
  ⟨((s.data.dropWhile Char.isWhitespace).reverse.dropWhile
      Char.isWhitespace).reverse⟩

/-- `NovaSonicSession._flush_current_turn`: append each non-empty (after
`str.strip()`, modelled by `pyStrip`) partial-turn buffer to the history
as a new `ConversationTurn`, clear the flushed buffers, then trim the history
to its last `MAX_HISTORY_TURNS * 2` entries.  `tUser`/`tAssistant` are the two
`time.time()` readings. -/
def flushCurrentTurn (s : Session) (tUser tAssistant : Int) : Session :=
  let s :=
    if pyStrip s.currentUserText ≠ "" then
      { s with
        history := s.history ++ [⟨"user", pyStrip s.currentUserText, tUser⟩]
        currentUserText := "" }
    else s
  let s :=
    if pyStrip s.currentAssistantText ≠ "" then
      { s with
        history :=
          s.history ++
            [⟨"assistant", pyStrip s.currentAssistantText, tAssistant⟩]
        currentAssistantText := "" }
    else s
  if s.history.length > MAX_HISTORY_TURNS * 2 then
    { s with
      history := s.history.drop (s.history.length - MAX_HISTORY_TURNS * 2) }
  else s

/-- `NovaSonicSession._build_continuation_prompt`. -/
def buildContinuationPrompt (s : Session) : String :=
  if s.history = [] then s.systemPrompt
  else
    let recent := s.history.drop (s.history.length - MAX_HISTORY_TURNS)
    let history_lines := recent.map (fun turn =>
      (if turn.role = "user" then "User" else "Assistant") ++ ": " ++ turn.text)
    let history_text := String.intercalate "\n" history_lines
    s.systemPrompt ++ "\n\n[Session continuation] The conversation so far:\n" ++
      history_text ++
      "\n\nContinue the conversation naturally from where it left off. " ++
      "Do not repeat previous responses or acknowledge the reconnection."

/-- The orderly close sequence sent (best effort) by both `reconnect` and
`stop`: contentEnd for the audio block, promptEnd, sessionEnd, then the
transport close. -/
def closeEvents (s : Session) : List OutEvent :=
  [.contentEnd s.promptName s.audioContentName, .promptEnd s.promptName,
   .sessionEnd, .streamClose]

/-- `NovaSonicSession.start` (the state/protocol effects; task spawning is not
modelled). -/
def start (s : Session) (now : Int) : Session :=
  if s.state ≠ .idle ∧ s.state ≠ .closed then s
  else
    let s := { s with state := .connecting }
    let s := openStream s s.systemPrompt
    { s with
      state := .active
      metrics := { s.metrics with sessionStartTime := now } }

/-- `NovaSonicSession.reconnect`: no-op unless `Active` or `Reconnecting`;
otherwise flush the partial turn, close the old stream, re-run the handshake
with the continuation prompt and fresh identifiers, return to `Active`, reset
the segment start time and count the reconnection.  (Task cancellation and
the reconnect-event pulse have no modelled state.) -/
def reconnect (s : Session) (tUser tAssistant now : Int) : Session :=
  if s.state ≠ .active ∧ s.state ≠ .reconnecting then s
  else
    let s := { s with state := .reconnecting }
    let s := flushCurrentTurn s tUser tAssistant
    let s := { s with sent := s.sent ++ closeEvents s }
    let continuation_prompt := buildContinuationPrompt s
    let s := openStream s continuation_prompt
    { s with
      state := .active
      metrics := { s.metrics with
        sessionStartTime := now
        reconnections := s.metrics.reconnections + 1 } }

/-- `NovaSonicSession.stop`: no-op in `Idle`/`Closing`/`Closed`; otherwise
flush the partial turn, send the close sequence and end in `Closed`. -/
def stop (s : Session) (tUser tAssistant : Int) : Session :=
  if s.state = .idle ∨ s.state = .closing ∨ s.state = .closed then s
  else
    let s := { s with shouldReconnect := false, state := .closing }
    let s := flushCurrentTurn s tUser tAssistant
    let s := { s with sent := s.sent ++ closeEvents s }
    { s with state := .closed }

/-- `NovaSonicSession.send_audio`: silently dropped unless `Active`; otherwise
sends one `audioInput` event against the open audio block and counts it.  The
base64 encoding is not modelled — the payload is carried as raw bytes. -/
def send_audio (s : Session) (pcm_data : List Byte) : Session :=
  if s.state ≠ .active then s
  else
    { s with
      sent := s.sent ++ [.audioInput s.promptName s.audioContentName pcm_data]
      metrics := { s.metrics with
        audioChunksSent := s.metrics.audioChunksSent + 1 } }

/-! ## Response-reader model (`NovaSonicSession._process_responses`) -/

/-- One inbound message that was received and successfully `json.loads`-ed.
`none` in a `content` field models a JSON object whose `textOutput` /
`audioOutput` payload is missing the `"content"` key.  For `contentStart`,
the outer `Option` models `.get("additionalModelFields")` (absent/falsy or a
decoded object) and the inner `Option` models `.get("generationStage")` on
that object.  `audioOutput` payloads are carried base64-decoded.
`completionEnd` carries the two `time.time()` readings its history flush
takes. -/
inductive InMsg where
  | noEvent
  | contentStart (role : Option String)
      (additionalModelFields : Option (Option String))
  | textOutput (content : Option String)
  | audioOutput (content : Option (List Byte))
  | completionEnd (tUser tAssistant : Int)
  | usageEvent
  | otherEvent
deriving DecidableEq, Repr

/-- The reader coroutine's state: the session object plus the two loop-local
variables `role` and `display_text`. -/
structure ReaderState where
  session : Session
  role : Option String := none
  displayText : Bool := false
deriving DecidableEq, Repr

/-- The `events_received` increment performed right after `json.loads`, before
the tag dispatch. -/
def bumpEvents (st : ReaderState) : ReaderState :=
  { st with session := { st.session with
      metrics := { st.session.metrics with
        eventsReceived := st.session.metrics.eventsReceived + 1 } } }

/-- One iteration of the reader's dispatch on a parsed message.  The returned
`Bool` is `true` when the iteration raised (`KeyError` on a missing
`"content"` field); the state mutations performed before the raise (the
counter bump) are kept. -/
def processMsg (st : ReaderState) (m : InMsg) : ReaderState × Bool :=
  let st := bumpEvents st
  match m with
  | .noEvent => (st, false)
  | .contentStart role additional =>
      let displayText :=
        match additional with
        | some fields => decide (fields = some "SPECULATIVE")
        | none => false
      ({ st with role := role, displayText := displayText }, false)
  | .textOutput none => (st, true)
  | .textOutput (some text) =>
      if st.role = some "ASSISTANT" ∧ st.displayText = true then
        ({ st with session := { st.session with
            currentAssistantText := st.session.currentAssistantText ++ text } },
         false)
      else if st.role = some "USER" then
        ({ st with session := { st.session with
            currentUserText := st.session.currentUserText ++ text } }, false)
      else (st, false)
  | .audioOutput none => (st, true)
  | .audioOutput (some audio_bytes) =>
      ({ st with session := { st.session with
          metrics := { st.session.metrics with
            audioChunksReceived := st.session.metrics.audioChunksReceived + 1 }
          audioOutputQueue := st.session.audioOutputQueue ++ [audio_bytes] } },
       false)
  | .completionEnd tUser tAssistant =>
      let s := { st.session with
        metrics := { st.session.metrics with
          turnsCompleted := st.session.metrics.turnsCompleted + 1 } }
      ({ st with session := flushCurrentTurn s tUser tAssistant }, false)
  | .usageEvent => (st, false)
  | .otherEvent => (st, false)

/-- The reader loop over the stream's (parsed) messages.  The whole `while`
loop sits inside one `try`: when an iteration raises, the exception is caught
by the outer handler (logged, not re-raised) and the loop is over — the
remaining messages are never read. -/
def processResponses (st : ReaderState) : List InMsg → ReaderState
  | [] => st
  | m :: rest =>
      if st.session.state ≠ .active then st
      else
        match processMsg st m with
        | (st', false) => processResponses st' rest
        | (st', true) => st'

/-! ## Object-heap model for the `history` property

The `history` property returns `list(self._history)`: a *fresh list object*
whose elements are references to the *same mutable* `ConversationTurn`
dataclass objects as the live history.  To talk about mutation of the
returned value, Python's reference semantics are made explicit: list objects
live in `lists` (each a list of turn references) and turn objects in
`turns`. -/

structure ObjHeap where
  lists : List (List Nat)
  turns : List ConversationTurn
deriving DecidableEq, Repr

/-- The placeholder a dangling turn reference dereferences to (never reached
under valid references). -/
def defaultTurn : ConversationTurn := ⟨"", "", 0⟩

/-- Observably reading a history list object: dereference each turn. -/
def historyRead (h : ObjHeap) (listRef : Nat) : List ConversationTurn :=
  (h.lists.getD listRef []).map (fun r => h.turns.getD r defaultTurn)

/-- The `history` property, `list(self._history)`: allocate a fresh list
object with the same turn references; returns the new heap and the reference
to the copy. -/
def historyCopy (h : ObjHeap) (histRef : Nat) : ObjHeap × Nat :=
  ({ h with lists := h.lists ++ [h.lists.getD histRef []] }, h.lists.length)

/-- An arbitrary in-place mutation of one list object (append, remove,
reorder, slice-assign…): only that list object changes. -/
def listMutate (h : ObjHeap) (listRef : Nat) (f : List Nat → List Nat) :
    ObjHeap :=
  { h with lists := h.lists.set listRef (f (h.lists.getD listRef [])) }

/-- In-place mutation of one turn object (`turn.text = …`; the dataclass is
not frozen). -/
def turnSetText (h : ObjHeap) (turnRef : Nat) (text : String) : ObjHeap :=
  { h with turns :=
      h.turns.set turnRef { h.turns.getD turnRef defaultTurn with text := text } }

/-! ## Statement-side helpers -/

/-- The entries a single `_flush_current_turn` call appends (used to *state*
properties of the flush; the executable flush above is the embedding). -/
def flushedEntriesOf (userText assistantText : String) (tUser tAssistant : Int) :
    List ConversationTurn :=
  (if pyStrip userText ≠ "" then
    [⟨"user", pyStrip userText, tUser⟩] else []) ++
    (if pyStrip assistantText ≠ "" then
      [⟨"assistant", pyStrip assistantText, tAssistant⟩] else [])

/-- The inputs of one flush in a sequence of flushes: the buffer contents the
reader accumulated since the previous flush and the two clock readings. -/
structure FlushInput where
  userText : String
  assistantText : String
  tUser : Int
  tAssistant : Int
deriving DecidableEq, Repr

/-- A sequence of partial-turn flushes: before each flush the accumulating
buffers hold the given step's text. -/
def flushSeq (s : Session) (steps : List FlushInput) : Session :=
  steps.foldl (fun s step =>
    flushCurrentTurn
      { s with currentUserText := step.userText
               currentAssistantText := step.assistantText }
      step.tUser step.tAssistant) s

/-- The freshness invariant of the `uuid.uuid4()` supply: every identifier the
session currently holds was issued by the supply, hence is below the
counter. -/
def IdsFresh (s : Session) : Prop :=
  s.promptName < s.uuidCounter ∧ s.systemContentName < s.uuidCounter ∧
    s.audioContentName < s.uuidCounter

instance (s : Session) : Decidable (IdsFresh s) := by
  unfold IdsFresh; infer_instance

/-- Interleave L/R sample pairs into the stereo sample order (used to *state*
the stereo-averaging claim). -/
def interleavePairs : List (Int × Int) → List Int
  | [] => []
  | (l, r) :: rest => l :: r :: interleavePairs rest

/-- A session at a moment it could really be in: `Active`, the history at its
`MAX_HISTORY_TURNS * 2` capacity, a non-empty partial user turn pending.
(Used as a concrete input to `reconnect`.) -/
def reconnectCexSession : Session :=
  { systemPrompt := "sys"
    state := .active
    history := (List.range (MAX_HISTORY_TURNS * 2)).map
      (fun i => { role := "user", text := "m", timestamp := (i : Int) })
    currentUserText := "overflow" }

/-- A freshly started minimal `Active` session. -/
def reconnectWitSession : Session :=
  { systemPrompt := "sys", state := .active }

/-- A reader state over an `Active` session (concrete input for the response
loop). -/
def readerCexState : ReaderState :=
  { session := { systemPrompt := "p", state := .active } }

/-- A one-turn heap: one live history list object (ref 0) holding the single
turn object (ref 0). -/
def heapCex : ObjHeap :=
  { lists := [[0]], turns := [{ role := "user", text := "hi", timestamp := 0 }] }

/-! ## Lemmas about the 16-bit PCM codec -/

theorem bytesToI16_range (lo hi : Byte) :
    -32768 ≤ bytesToI16 lo hi ∧ bytesToI16 lo hi < 32768 := by
  have h1 := lo.isLt
  have h2 := hi.isLt
  dsimp only [bytesToI16]
  split <;> omega

theorem unpackSamples_range (data : List Byte) :
    ∀ v ∈ unpackSamples data, -32768 ≤ v ∧ v < 32768 := by
  induction data using unpackSamples.induct with
  | case1 lo hi rest ih =>
      intro v hv
      simp only [unpackSamples, List.mem_cons] at hv
      rcases hv with rfl | hv
      · exact bytesToI16_range lo hi
      · exact ih v hv
  | case2 data h =>
      intro v hv
      match data, h with
      | [], _ => simp [unpackSamples] at hv
      | [x], _ => simp [unpackSamples] at hv
      | lo :: hi :: rest, h => exact absurd rfl (h lo hi rest)

theorem unpackSamples_length (data : List Byte) :
    (unpackSamples data).length = data.length / 2 := by
  induction data using unpackSamples.induct with
  | case1 lo hi rest ih =>
      simp only [unpackSamples, List.length_cons, ih]
      omega
  | case2 data h =>
      match data, h with
      | [], _ => simp [unpackSamples]
      | [x], _ => simp [unpackSamples]
      | lo :: hi :: rest, h => exact absurd rfl (h lo hi rest)

theorem packSamples_cons (v : Int) (l : List Int) :
    packSamples (v :: l) = i16ToBytes v ++ packSamples l := by
  simp [packSamples]

theorem packSamples_length (l : List Int) :
    (packSamples l).length = 2 * l.length := by
  induction l with
  | nil => simp [packSamples]
  | cons v l ih =>
      rw [packSamples_cons, List.length_append, ih]
      simp [i16ToBytes]
      omega

theorem unpackSamples_i16ToBytes_append (v : Int) (rest : List Byte)
    (h1 : -32768 ≤ v) (h2 : v < 32768) :
    unpackSamples (i16ToBytes v ++ rest) = v :: unpackSamples rest := by
  have hv : (0 : Int) ≤ v % 65536 := Int.emod_nonneg v (by norm_num)
  have hlt : v % 65536 < 65536 := Int.emod_lt_of_pos v (by norm_num)
  have hu : ((v % 65536).toNat : Int) = v % 65536 := Int.toNat_of_nonneg hv
  have hcase : v % 65536 = v ∨ v % 65536 = v + 65536 := by omega
  dsimp only [i16ToBytes, List.cons_append, List.nil_append, unpackSamples,
    bytesToI16]
  congr 1
  split <;> omega

theorem unpackSamples_packSamples (l : List Int)
    (h : ∀ v ∈ l, -32768 ≤ v ∧ v < 32768) :
    unpackSamples (packSamples l) = l := by
  induction l with
  | nil => simp [packSamples, unpackSamples]
  | cons v l ih =>
      have hv := h v (List.mem_cons_self v l)
      rw [packSamples_cons, unpackSamples_i16ToBytes_append v _ hv.1 hv.2,
        ih (fun w hw => h w (List.mem_cons_of_mem v hw))]

theorem i16ToBytes_bytesToI16 (lo hi : Byte) :
    i16ToBytes (bytesToI16 lo hi) = [lo, hi] := by
  have h1 := lo.isLt
  have h2 := hi.isLt
  dsimp only [bytesToI16, i16ToBytes]
  have key : ((if lo.val + 256 * hi.val < 32768 then
      ((lo.val + 256 * hi.val : Nat) : Int)
    else ((lo.val + 256 * hi.val : Nat) : Int) - 65536) % 65536).toNat
      = lo.val + 256 * hi.val := by
    split <;> omega
  simp only [List.cons.injEq, and_true, Fin.ext_iff]
  rw [key]
  constructor <;> omega

theorem packSamples_unpackSamples (data : List Byte)
    (h : data.length % 2 = 0) :
    packSamples (unpackSamples data) = data := by
  induction data using unpackSamples.induct with
  | case1 lo hi rest ih =>
      simp only [List.length_cons] at h
      rw [unpackSamples, packSamples_cons, i16ToBytes_bytesToI16,
        ih (by omega)]
      rfl
  | case2 data hm =>
      match data, hm with
      | [], _ => simp [unpackSamples, packSamples]
      | [x], _ => simp at h
      | lo :: hi :: rest, hm => exact absurd rfl (hm lo hi rest)

theorem interleavePairs_length (pairs : List (Int × Int)) :
    (interleavePairs pairs).length = 2 * pairs.length := by
  induction pairs with
  | nil => simp [interleavePairs]
  | cons p rest ih =>
      obtain ⟨l, r⟩ := p
      simp only [interleavePairs, List.length_cons, ih]
      omega

theorem interleavePairs_range (pairs : List (Int × Int))
    (h : ∀ p ∈ pairs, -32768 ≤ p.1 ∧ p.1 < 32768 ∧ -32768 ≤ p.2 ∧ p.2 < 32768) :
    ∀ v ∈ interleavePairs pairs, -32768 ≤ v ∧ v < 32768 := by
  induction pairs with
  | nil => simp [interleavePairs]
  | cons p rest ih =>
      obtain ⟨l, r⟩ := p
      intro v hv
      simp only [interleavePairs, List.mem_cons] at hv
      have hp := h (l, r) (List.mem_cons_self _ rest)
      rcases hv with rfl | rfl | hv
      · exact ⟨hp.1, hp.2.1⟩
      · exact ⟨hp.2.2.1, hp.2.2.2⟩
      · exact ih (fun q hq => h q (List.mem_cons_of_mem _ hq)) v hv

theorem avgPairs_interleavePairs (pairs : List (Int × Int)) :
    avgPairs (interleavePairs pairs) =
      pairs.map (fun p => pyFloorDiv (p.1 + p.2) 2) := by
  induction pairs with
  | nil => simp [interleavePairs, avgPairs]
  | cons p rest ih =>
      obtain ⟨l, r⟩ := p
      simp only [interleavePairs, avgPairs, List.map_cons, ih]

theorem avgPairs_duplicated (l : List Int) :
    avgPairs ((l.map (fun s => [s, s])).flatten) = l := by
  induction l with
  | nil => simp [avgPairs]
  | cons s rest ih =>
      have h2 : s + s = 2 * s := by ring
      simp only [List.map_cons, List.flatten_cons, List.cons_append,
        List.append_eq, List.nil_append, avgPairs, pyFloorDiv, ih]
      rw [h2, Int.mul_fdiv_cancel_left s (by norm_num)]

theorem pyFloorDiv_two_eq_floor (a : Int) :
    pyFloorDiv a 2 = ⌊((a : ℚ)) / 2⌋ := by
  rw [pyFloorDiv, Int.fdiv_eq_ediv a (by norm_num)]
  have h := Rat.floor_intCast_div_natCast a 2
  simpa using h.symm

/-- `stereo_to_mono` on input that is a whole number of stereo frames: the
trim is the identity there. -/
theorem stereo_to_mono_aligned (data : List Byte) (h : data.length % 4 = 0) :
    stereo_to_mono data =
      if data = [] then [] else packSamples (avgPairs (unpackSamples data)) := by
  unfold stereo_to_mono
  rw [h, Nat.sub_zero, List.take_length]

theorem dup_flatten_length (l : List Int) :
    ((l.map (fun s => [s, s])).flatten).length = 2 * l.length := by
  induction l with
  | nil => simp
  | cons s rest ih => simp only [List.map_cons, List.flatten_cons,
      List.length_append, List.length_cons, List.length_nil, ih]; omega

theorem dup_flatten_range (l : List Int)
    (h : ∀ v ∈ l, -32768 ≤ v ∧ v < 32768) :
    ∀ v ∈ (l.map (fun s => [s, s])).flatten, -32768 ≤ v ∧ v < 32768 := by
  intro v hv
  simp only [List.mem_flatten, List.mem_map] at hv
  obtain ⟨m, ⟨s, hs, rfl⟩, hm⟩ := hv
  simp only [List.mem_cons, List.not_mem_nil, or_false] at hm
  rcases hm with rfl | rfl <;> exact h v hs

/-- C8: `stereo_to_mono` averages each interleaved L/R 16-bit sample pair
with floor semantics — every output sample is `⌊(L + R) / 2⌋` — and in
particular the pair `(32767, -32768)` yields the mono sample `-1`. -/
theorem stereo_to_mono_floor_average (pairs : List (Int × Int))
    (h : ∀ p ∈ pairs, -32768 ≤ p.1 ∧ p.1 < 32768 ∧ -32768 ≤ p.2 ∧ p.2 < 32768) :
    stereo_to_mono (packSamples (interleavePairs pairs)) =
      packSamples (pairs.map (fun p => ⌊((p.1 + p.2 : ℤ) : ℚ) / 2⌋)) ∧
    unpackSamples (stereo_to_mono (packSamples
      (interleavePairs [((32767 : ℤ), (-32768 : ℤ))]))) = [(-1 : ℤ)] := by
  constructor
  · have hlen : (packSamples (interleavePairs pairs)).length % 4 = 0 := by
      rw [packSamples_length, interleavePairs_length]; omega
    rw [stereo_to_mono_aligned _ hlen]
    by_cases hnil : packSamples (interleavePairs pairs) = []
    · have hl := packSamples_length (interleavePairs pairs)
      rw [hnil, interleavePairs_length] at hl
      simp only [List.length_nil] at hl
      have hp : pairs = [] := List.eq_nil_of_length_eq_zero (by omega)
      subst hp
      rw [if_pos hnil]
      rfl
    · rw [if_neg hnil,
        unpackSamples_packSamples _ (interleavePairs_range pairs h),
        avgPairs_interleavePairs]
      have hfun : (fun p : Int × Int => pyFloorDiv (p.1 + p.2) 2) =
          fun p : Int × Int => ⌊((p.1 + p.2 : ℤ) : ℚ) / 2⌋ :=
        funext fun p => pyFloorDiv_two_eq_floor _
      rw [hfun]
  · decide

/-- Witness for `stereo_to_mono_floor_average` at the single pair
`(32767, -32768)`. -/
theorem stereo_to_mono_floor_average_witness :
    (∀ p ∈ [((32767 : ℤ), (-32768 : ℤ))],
      -32768 ≤ p.1 ∧ p.1 < 32768 ∧ -32768 ≤ p.2 ∧ p.2 < 32768) ∧
    (stereo_to_mono (packSamples (interleavePairs
        [((32767 : ℤ), (-32768 : ℤ))])) =
      packSamples ([((32767 : ℤ), (-32768 : ℤ))].map
        (fun p => ⌊((p.1 + p.2 : ℤ) : ℚ) / 2⌋)) ∧
    unpackSamples (stereo_to_mono (packSamples
      (interleavePairs [((32767 : ℤ), (-32768 : ℤ))]))) = [(-1 : ℤ)]) :=
  ⟨by decide, stereo_to_mono_floor_average _ (by decide)⟩

/-- C4 counterexample: the claim quantifies over *every* byte string, but on
the one-byte input `[0]` the code raises `struct.error` inside
`mono_to_stereo` (`struct.unpack("<0h", …)` on a 1-byte buffer), modelled as
`none` — it does not reproduce the input. -/
theorem mono_stereo_roundtrip_counterexample :
    (mono_to_stereo [(0 : Byte)]).map stereo_to_mono ≠ some [(0 : Byte)] := by
  decide

/-- C4 (amended to sample-aligned inputs): for every byte string of even
length, duplicating each mono sample into both channels and then averaging
the channel pairs reproduces the input exactly. -/
theorem mono_stereo_roundtrip (x : List Byte) (hx : x.length % 2 = 0) :
    (mono_to_stereo x).map stereo_to_mono = some x := by
  unfold mono_to_stereo
  by_cases hnil : x = []
  · subst hnil
    simp [stereo_to_mono, packSamples, unpackSamples]
  · rw [if_neg hnil, if_neg (by omega : ¬x.length % 2 ≠ 0)]
    simp only [Option.map_some']
    have hrange := unpackSamples_range x
    have hdrange := dup_flatten_range (unpackSamples x) hrange
    have hlen4 : (packSamples
        (((unpackSamples x).map (fun s => [s, s])).flatten)).length % 4 = 0 := by
      rw [packSamples_length, dup_flatten_length]; omega
    rw [stereo_to_mono_aligned _ hlen4]
    have hnil2 : packSamples
        (((unpackSamples x).map (fun s => [s, s])).flatten) ≠ [] := by
      intro hcontra
      have hl := packSamples_length
        (((unpackSamples x).map (fun s => [s, s])).flatten)
      rw [hcontra, dup_flatten_length, unpackSamples_length] at hl
      simp only [List.length_nil] at hl
      have : x.length = 0 := by omega
      exact hnil (List.eq_nil_of_length_eq_zero this)
    rw [if_neg hnil2, unpackSamples_packSamples _ hdrange,
      avgPairs_duplicated, packSamples_unpackSamples x hx]

/-- Witness for `mono_stereo_roundtrip` at the two-byte input `[0, 0]`. -/
theorem mono_stereo_roundtrip_witness :
    [(0 : Byte), (0 : Byte)].length % 2 = 0 ∧
    (mono_to_stereo [(0 : Byte), (0 : Byte)]).map stereo_to_mono =
      some [(0 : Byte), (0 : Byte)] :=
  ⟨by decide, mono_stereo_roundtrip _ (by decide)⟩

/-! ## Lemmas about chunking -/

theorem chunkGo_nil (size : Nat) : chunkGo size [] = [] := by
  unfold chunkGo
  split <;> simp

theorem chunkGo_flatten (size : Nat) (hn : size ≠ 0) (data : List Byte) :
    (chunkGo size data).flatten = data := by
  generalize hL : data.length = L
  induction L using Nat.strong_induction_on generalizing data with
  | _ L ih =>
      by_cases h1 : data = []
      · subst h1
        rw [chunkGo_nil]
        rfl
      · rw [chunkGo, if_neg hn, if_neg h1, List.flatten_cons]
        have hlt : (data.drop size).length < L := by
          subst hL
          rw [List.length_drop]
          have := List.length_pos.mpr h1
          omega
        rw [ih _ hlt _ rfl, List.take_append_drop]

theorem chunkGo_dropLast (size : Nat) (hn : size ≠ 0) (data : List Byte) :
    ∀ c ∈ (chunkGo size data).dropLast, c.length = size := by
  generalize hL : data.length = L
  induction L using Nat.strong_induction_on generalizing data with
  | _ L ih =>
      intro c hc
      by_cases h1 : data = []
      · subst h1
        rw [chunkGo_nil] at hc
        simp at hc
      · rw [chunkGo, if_neg hn, if_neg h1] at hc
        have hlt : (data.drop size).length < L := by
          subst hL
          rw [List.length_drop]
          have := List.length_pos.mpr h1
          omega
        by_cases hrest : chunkGo size (data.drop size) = []
        · rw [hrest] at hc
          simp at hc
        · rw [List.dropLast_cons_of_ne_nil hrest] at hc
          rcases List.mem_cons.mp hc with rfl | hc'
          · have hd : data.drop size ≠ [] := by
              intro hdrop
              rw [hdrop, chunkGo_nil] at hrest
              exact hrest rfl
            have hsz : size < data.length := by
              by_contra hle
              exact hd (List.drop_eq_nil_iff.mpr (by omega))
            simp only [List.length_take]
            omega
          · exact ih _ hlt _ rfl c hc'

/-- C5: for chunk size `n ≥ 1`, `chunk_audio` yields slices whose
concatenation is exactly the input, yields zero slices on empty input, and
every slice except possibly the last has length exactly `n`. -/
theorem chunk_audio_spec (data : List Byte) (n : Nat) (hn : 1 ≤ n) :
    ∃ chunks, chunk_audio data n = some chunks ∧
      chunks.flatten = data ∧
      (data = [] → chunks = []) ∧
      ∀ c ∈ chunks.dropLast, c.length = n := by
  refine ⟨chunkGo n data, ?_, chunkGo_flatten n (by omega) data, ?_,
    chunkGo_dropLast n (by omega) data⟩
  · rw [chunk_audio, if_neg (by omega)]
  · intro h
    subst h
    exact chunkGo_nil n

/-- Witness for `chunk_audio_spec`: three bytes in chunks of two. -/
theorem chunk_audio_spec_witness :
    1 ≤ 2 ∧
    ∃ chunks, chunk_audio [(0 : Byte), (1 : Byte), (2 : Byte)] 2 = some chunks ∧
      chunks.flatten = [(0 : Byte), (1 : Byte), (2 : Byte)] ∧
      ([(0 : Byte), (1 : Byte), (2 : Byte)] = ([] : List Byte) → chunks = []) ∧
      ∀ c ∈ chunks.dropLast, c.length = 2 :=
  ⟨by decide, chunk_audio_spec _ 2 (by decide)⟩

/-! ## Lemmas about the resamplers -/

/-- The Python bodies of `downsample_linear` and `upsample_linear` are
token-for-token identical, and so are their embeddings. -/
theorem downsample_eq_upsample (data : List Byte) (src_rate dst_rate : Nat) :
    downsample_linear data src_rate dst_rate =
      upsample_linear data src_rate dst_rate := rfl

theorem ratTrunc_natCast_div (a b : Nat) :
    ratTrunc ((a : ℚ) / (b : ℚ)) = ((a / b : Nat) : ℤ) := by
  have hq : (0 : ℚ) ≤ (a : ℚ) / (b : ℚ) := by positivity
  have hnum : 0 ≤ ((a : ℚ) / (b : ℚ)).num := Rat.num_nonneg.mpr hq
  have h1 : ratTrunc ((a : ℚ) / (b : ℚ)) = ⌊(a : ℚ) / (b : ℚ)⌋ := by
    rw [Rat.floor_def, ratTrunc]
    exact Int.tdiv_eq_ediv hnum (Int.ofNat_nonneg _)
  rw [h1, Rat.floor_natCast_div_natCast, Int.natCast_div]

theorem ratio_div_eq (n s d : Nat) (hs : 0 < s) (hd : 0 < d) :
    (n : ℚ) / ((s : ℚ) / (d : ℚ)) = ((n * d : Nat) : ℚ) / ((s : Nat) : ℚ) := by
  have hs' : (s : ℚ) ≠ 0 := by positivity
  have hd' : (d : ℚ) ≠ 0 := by positivity
  push_cast
  field_simp

/-- C3 counterexample: the claim quantifies over *every* input byte string,
but on the one-byte input `[0]` with rates `2 → 1` the code raises
`struct.error` (`struct.unpack("<0h", …)` on a 1-byte buffer), modelled as
`none` — no output (of the required zero samples) is produced. -/
theorem resample_length_counterexample :
    downsample_linear [(0 : Byte)] 2 1 = none := by decide

/-- C3 (amended to sample-aligned inputs, under the exact-rational reading of
the rate arithmetic): for every byte string of even length — including empty —
and all positive rates, both resamplers succeed and produce exactly
`⌊inputSampleCount * dstRate / srcRate⌋` output samples. -/
theorem resample_output_length (data : List Byte) (src_rate dst_rate : Nat)
    (hs : 0 < src_rate) (hd : 0 < dst_rate) (heven : data.length % 2 = 0) :
    ∃ out, downsample_linear data src_rate dst_rate = some out ∧
      upsample_linear data src_rate dst_rate = some out ∧
      out.length / 2 = data.length / 2 * dst_rate / src_rate := by
  rw [← downsample_eq_upsample]
  by_cases heq : src_rate = dst_rate
  · subst heq
    refine ⟨data, ?_, ?_, ?_⟩
    · unfold downsample_linear
      rw [if_pos rfl]
    · unfold downsample_linear
      rw [if_pos rfl]
    · rw [Nat.mul_div_cancel _ hs]
  · by_cases hnil : data = []
    · subst hnil
      refine ⟨[], ?_, ?_, by simp⟩ <;>
        · unfold downsample_linear
          rw [if_neg heq]
          rfl
    · have hkey : ratTrunc ((↑(data.length / 2) : ℚ) /
          ((src_rate : ℚ) / (dst_rate : ℚ))) =
          ((data.length / 2 * dst_rate / src_rate : Nat) : ℤ) := by
        rw [ratio_div_eq _ _ _ hs hd, ratTrunc_natCast_div]
      unfold downsample_linear
      rw [if_neg heq, if_neg hnil, if_neg (by omega : ¬data.length % 2 ≠ 0)]
      simp only [hkey]
      by_cases hz : ((data.length / 2 * dst_rate / src_rate : Nat) : ℤ) = 0
      · rw [if_pos hz]
        refine ⟨[], rfl, rfl, ?_⟩
        simp only [List.length_nil, Nat.zero_div]
        omega
      · rw [if_neg hz]
        refine ⟨_, rfl, rfl, ?_⟩
        rw [packSamples_length, List.length_map, List.length_range,
          Int.toNat_ofNat]
        omega

/-- Witness for `resample_output_length`: four bytes (two samples) downsampled
`2 → 1` give one output sample. -/
theorem resample_output_length_witness :
    0 < 2 ∧ 0 < 1 ∧ [(0 : Byte), (0 : Byte), (0 : Byte), (0 : Byte)].length % 2 = 0 ∧
    ∃ out, downsample_linear [(0 : Byte), (0 : Byte), (0 : Byte), (0 : Byte)] 2 1 =
        some out ∧
      upsample_linear [(0 : Byte), (0 : Byte), (0 : Byte), (0 : Byte)] 2 1 =
        some out ∧
      out.length / 2 =
        [(0 : Byte), (0 : Byte), (0 : Byte), (0 : Byte)].length / 2 * 1 / 2 :=
  ⟨by decide, by decide, by decide,
    resample_output_length _ 2 1 (by decide) (by decide) (by decide)⟩

/-- C10: `downsample_linear` and `upsample_linear` are extensionally equal —
their bodies implement the identical linear-interpolation algorithm. -/
theorem resample_functions_extensionally_equal :
    ∀ (data : List Byte) (src_rate dst_rate : Nat),
      downsample_linear data src_rate dst_rate =
        upsample_linear data src_rate dst_rate :=
  fun data src_rate dst_rate => downsample_eq_upsample data src_rate dst_rate

/-! ## Lemmas about the partial-turn flush -/

/-- One flush call appends exactly the non-empty (after trimming) buffers and
then keeps the most recent `MAX_HISTORY_TURNS * 2` entries. -/
theorem flush_history_eq (s : Session) (tUser tAssistant : Int) :
    (flushCurrentTurn s tUser tAssistant).history =
      (s.history ++ flushedEntriesOf s.currentUserText s.currentAssistantText
          tUser tAssistant).drop
        ((s.history ++ flushedEntriesOf s.currentUserText
            s.currentAssistantText tUser tAssistant).length -
          MAX_HISTORY_TURNS * 2) := by
  simp only [flushCurrentTurn, flushedEntriesOf, MAX_HISTORY_TURNS]
  split_ifs with h1 h2 h3 h4 h5 h6 h7 <;>
    simp_all [List.append_assoc, List.length_append]

/-- Whatever the state, a flush leaves the history within the
`MAX_HISTORY_TURNS * 2` bound. -/
theorem flush_history_len_le (s : Session) (tUser tAssistant : Int) :
    (flushCurrentTurn s tUser tAssistant).history.length ≤
      MAX_HISTORY_TURNS * 2 := by
  rw [flush_history_eq, List.length_drop]
  omega

/-- A flush touches only the history and the two text buffers. -/
theorem flush_preserves (s : Session) (tUser tAssistant : Int) :
    (flushCurrentTurn s tUser tAssistant).state = s.state ∧
    (flushCurrentTurn s tUser tAssistant).metrics = s.metrics ∧
    (flushCurrentTurn s tUser tAssistant).uuidCounter = s.uuidCounter ∧
    (flushCurrentTurn s tUser tAssistant).sent = s.sent ∧
    (flushCurrentTurn s tUser tAssistant).promptName = s.promptName ∧
    (flushCurrentTurn s tUser tAssistant).systemContentName =
      s.systemContentName ∧
    (flushCurrentTurn s tUser tAssistant).audioContentName =
      s.audioContentName ∧
    (flushCurrentTurn s tUser tAssistant).systemPrompt = s.systemPrompt := by
  simp only [flushCurrentTurn]
  split_ifs <;> simp

theorem suffix_append_right {α : Type} {l₁ l₂ : List α} (t : List α)
    (h : l₁ <:+ l₂) : l₁ ++ t <:+ l₂ ++ t := by
  obtain ⟨w, rfl⟩ := h
  exact ⟨w, (List.append_assoc w l₁ t).symm⟩

theorem flushSeq_cons (s : Session) (step : FlushInput)
    (rest : List FlushInput) :
    flushSeq s (step :: rest) =
      flushSeq (flushCurrentTurn
        { s with currentUserText := step.userText
                 currentAssistantText := step.assistantText }
        step.tUser step.tAssistant) rest := rfl

theorem flushSeq_suffix (s : Session) (steps : List FlushInput) :
    (flushSeq s steps).history.IsSuffix
      (s.history ++ (steps.map (fun st =>
        flushedEntriesOf st.userText st.assistantText st.tUser
          st.tAssistant)).flatten) := by
  induction steps generalizing s with
  | nil => simp [flushSeq]
  | cons step rest ih =>
      rw [flushSeq_cons]
      have h3 : (flushCurrentTurn
          { s with currentUserText := step.userText
                   currentAssistantText := step.assistantText }
          step.tUser step.tAssistant).history <:+
          s.history ++ flushedEntriesOf step.userText step.assistantText
            step.tUser step.tAssistant := by
        rw [flush_history_eq]
        exact List.drop_suffix _ _
      have htarget : s.history ++ ((step :: rest).map (fun st =>
          flushedEntriesOf st.userText st.assistantText st.tUser
            st.tAssistant)).flatten =
          (s.history ++ flushedEntriesOf step.userText step.assistantText
            step.tUser step.tAssistant) ++ (rest.map (fun st =>
          flushedEntriesOf st.userText st.assistantText st.tUser
            st.tAssistant)).flatten := by
        simp [List.append_assoc]
      rw [htarget]
      exact (ih _).trans (suffix_append_right _ h3)

theorem flushSeq_len_le (s : Session) (steps : List FlushInput)
    (h : s.history.length ≤ MAX_HISTORY_TURNS * 2) :
    (flushSeq s steps).history.length ≤ MAX_HISTORY_TURNS * 2 := by
  induction steps generalizing s with
  | nil => exact h
  | cons step rest ih =>
      rw [flushSeq_cons]
      exact ih _ (flush_history_len_le _ _ _)

/-- C6: after any sequence of partial-turn flushes the history stays within
`2 × MAX_HISTORY_TURNS` entries; the retained entries are a suffix of the
appended ones in insertion order; and a single flush appends a turn for a
role exactly when that role's buffer is non-empty after stripping, keeping
the most recent entries. -/
theorem history_flush_bound (s : Session) (steps : List FlushInput)
    (hlen : s.history.length ≤ MAX_HISTORY_TURNS * 2) :
    (flushSeq s steps).history.length ≤ MAX_HISTORY_TURNS * 2 ∧
    (flushSeq s steps).history.IsSuffix
      (s.history ++ (steps.map (fun st =>
        flushedEntriesOf st.userText st.assistantText st.tUser
          st.tAssistant)).flatten) ∧
    (∀ (s' : Session) (tUser tAssistant : Int),
      (flushCurrentTurn s' tUser tAssistant).history =
        (s'.history ++ flushedEntriesOf s'.currentUserText
            s'.currentAssistantText tUser tAssistant).drop
          ((s'.history ++ flushedEntriesOf s'.currentUserText
              s'.currentAssistantText tUser tAssistant).length -
            MAX_HISTORY_TURNS * 2)) :=
  ⟨flushSeq_len_le s steps hlen, flushSeq_suffix s steps,
    fun s' tU tA => flush_history_eq s' tU tA⟩

/-- Witness for `history_flush_bound`: one flush of a user buffer into an
initially empty history. -/
theorem history_flush_bound_witness :
    ({ systemPrompt := "p" } : Session).history.length ≤
      MAX_HISTORY_TURNS * 2 ∧
    ((flushSeq { systemPrompt := "p" } [⟨"hi", " ", 0, 1⟩]).history.length ≤
      MAX_HISTORY_TURNS * 2 ∧
    (flushSeq { systemPrompt := "p" } [⟨"hi", " ", 0, 1⟩]).history.IsSuffix
      (({ systemPrompt := "p" } : Session).history ++
        (([⟨"hi", " ", 0, 1⟩] : List FlushInput).map (fun st =>
          flushedEntriesOf st.userText st.assistantText st.tUser
            st.tAssistant)).flatten) ∧
    (∀ (s' : Session) (tUser tAssistant : Int),
      (flushCurrentTurn s' tUser tAssistant).history =
        (s'.history ++ flushedEntriesOf s'.currentUserText
            s'.currentAssistantText tUser tAssistant).drop
          ((s'.history ++ flushedEntriesOf s'.currentUserText
              s'.currentAssistantText tUser tAssistant).length -
            MAX_HISTORY_TURNS * 2))) :=
  ⟨by decide, history_flush_bound _ _ (by decide)⟩

/-! ## Reconnect and the state machine -/

/-- C1 counterexample: the claim promises that *every* pre-call
`ConversationTurn` survives `reconnect()`, but when the history is at the
`MAX_HISTORY_TURNS * 2` capacity and a partial turn is pending, the flush
trims the oldest entry: the turn with timestamp `0` is present before the
call and gone afterwards. -/
theorem reconnect_history_counterexample :
    ({ role := "user", text := "m", timestamp := 0 } : ConversationTurn) ∈
      reconnectCexSession.history ∧
    ({ role := "user", text := "m", timestamp := 0 } : ConversationTurn) ∉
      (reconnect reconnectCexSession 99 98 97).history := by
  decide

set_option maxHeartbeats 1000000 in
/-- C1 (amended: pre-call turns are retained up to the
`MAX_HISTORY_TURNS * 2` sliding-window bound, oldest dropped first): from
`Active`, `reconnect` returns to `Active`; the new history is exactly the old
history plus the flushed non-empty partial-turn buffers, trimmed to the most
recent `MAX_HISTORY_TURNS * 2` entries (so all pre-call turns survive in
order whenever the combined length is within the bound); all three protocol
identifiers differ from their pre-call values; and the reconnection counter
grows by exactly one. -/
theorem reconnect_active_spec (s : Session) (tU tA now : Int)
    (hact : s.state = SessionState.active) (hids : IdsFresh s) :
    (reconnect s tU tA now).state = SessionState.active ∧
    (reconnect s tU tA now).history =
      (s.history ++ flushedEntriesOf s.currentUserText s.currentAssistantText
          tU tA).drop
        ((s.history ++ flushedEntriesOf s.currentUserText
            s.currentAssistantText tU tA).length - MAX_HISTORY_TURNS * 2) ∧
    ((s.history ++ flushedEntriesOf s.currentUserText s.currentAssistantText
        tU tA).length ≤ MAX_HISTORY_TURNS * 2 →
      (reconnect s tU tA now).history =
        s.history ++ flushedEntriesOf s.currentUserText
          s.currentAssistantText tU tA) ∧
    (reconnect s tU tA now).promptName ≠ s.promptName ∧
    (reconnect s tU tA now).systemContentName ≠ s.systemContentName ∧
    (reconnect s tU tA now).audioContentName ≠ s.audioContentName ∧
    (reconnect s tU tA now).metrics.reconnections =
      s.metrics.reconnections + 1 := by
  obtain ⟨hp, hsc, hac⟩ := hids
  have hguard : ¬(s.state ≠ SessionState.active ∧
      s.state ≠ SessionState.reconnecting) := by
    simp [hact]
  have hflushpre :=
    flush_preserves { s with state := SessionState.reconnecting } tU tA
  have hflushhist :=
    flush_history_eq { s with state := SessionState.reconnecting } tU tA
  unfold reconnect
  rw [if_neg hguard]
  simp only [openStream]
  refine ⟨trivial, ?_, ?_, ?_, ?_, ?_, ?_⟩
  · try dsimp only
    rw [hflushhist]
    try dsimp only
  · intro hle
    try dsimp only
    rw [hflushhist]
    try dsimp only
    rw [Nat.sub_eq_zero_of_le hle, List.drop_zero]
  · try dsimp only
    rw [hflushpre.2.2.1]
    try dsimp only
    omega
  · try dsimp only
    rw [hflushpre.2.2.1]
    try dsimp only
    omega
  · try dsimp only
    rw [hflushpre.2.2.1]
    try dsimp only
    omega
  · try dsimp only
    rw [hflushpre.2.1]
    try dsimp only

/-- Witness for `reconnect_active_spec` on a fresh minimal active session. -/
theorem reconnect_active_spec_witness :
    reconnectWitSession.state = SessionState.active ∧
    IdsFresh reconnectWitSession ∧
    ((reconnect reconnectWitSession 0 0 0).state = SessionState.active ∧
    (reconnect reconnectWitSession 0 0 0).history =
      (reconnectWitSession.history ++ flushedEntriesOf
          reconnectWitSession.currentUserText
          reconnectWitSession.currentAssistantText 0 0).drop
        ((reconnectWitSession.history ++ flushedEntriesOf
            reconnectWitSession.currentUserText
            reconnectWitSession.currentAssistantText 0 0).length -
          MAX_HISTORY_TURNS * 2) ∧
    ((reconnectWitSession.history ++ flushedEntriesOf
        reconnectWitSession.currentUserText
        reconnectWitSession.currentAssistantText 0 0).length ≤
        MAX_HISTORY_TURNS * 2 →
      (reconnect reconnectWitSession 0 0 0).history =
        reconnectWitSession.history ++ flushedEntriesOf
          reconnectWitSession.currentUserText
          reconnectWitSession.currentAssistantText 0 0) ∧
    (reconnect reconnectWitSession 0 0 0).promptName ≠
      reconnectWitSession.promptName ∧
    (reconnect reconnectWitSession 0 0 0).systemContentName ≠
      reconnectWitSession.systemContentName ∧
    (reconnect reconnectWitSession 0 0 0).audioContentName ≠
      reconnectWitSession.audioContentName ∧
    (reconnect reconnectWitSession 0 0 0).metrics.reconnections =
      reconnectWitSession.metrics.reconnections + 1) :=
  ⟨rfl, by decide, reconnect_active_spec reconnectWitSession 0 0 0 rfl
    (by decide)⟩

/-- C7: `reconnect()` in `Idle` is a complete no-op (state, identifiers,
metrics and the outbound log are untouched, so no handshake I/O happens);
`stop()` in `Closed` is a complete no-op (no duplicate close events); and
after a `stop()` from `Active` the session is `Closed`, so a second `stop()`
changes nothing. -/
theorem invalid_transition_noops (s : Session) (tU tA tU2 tA2 now : Int) :
    (s.state = SessionState.idle → reconnect s tU tA now = s) ∧
    (s.state = SessionState.closed → stop s tU tA = s) ∧
    (s.state = SessionState.active →
      (stop s tU tA).state = SessionState.closed ∧
      stop (stop s tU tA) tU2 tA2 = stop s tU tA) := by
  have hstop_noop : ∀ (x : Session) (a b : Int),
      (x.state = SessionState.idle ∨ x.state = SessionState.closing ∨
        x.state = SessionState.closed) → stop x a b = x := by
    intro x a b h
    unfold stop
    rw [if_pos h]
  have hstop_closed : ∀ (x : Session) (a b : Int),
      x.state = SessionState.active → (stop x a b).state =
        SessionState.closed := by
    intro x a b h
    unfold stop
    rw [if_neg (by rw [h]; decide)]
  refine ⟨?_, ?_, ?_⟩
  · intro h
    unfold reconnect
    rw [if_pos (by rw [h]; exact ⟨by decide, by decide⟩)]
  · intro h
    exact hstop_noop s tU tA (Or.inr (Or.inr h))
  · intro h
    exact ⟨hstop_closed s tU tA h,
      hstop_noop _ tU2 tA2 (Or.inr (Or.inr (hstop_closed s tU tA h)))⟩

/-- Witness for `invalid_transition_noops` on concrete idle, closed and
active sessions. -/
theorem invalid_transition_noops_witness :
    (reconnect { systemPrompt := "p" } 0 0 0 =
      { systemPrompt := "p" }) ∧
    (stop { systemPrompt := "p", state := .closed } 0 0 =
      { systemPrompt := "p", state := .closed }) ∧
    ((stop { systemPrompt := "p", state := .active } 0 0).state =
      SessionState.closed ∧
      stop (stop { systemPrompt := "p", state := .active } 0 0) 1 1 =
        stop { systemPrompt := "p", state := .active } 0 0) :=
  ⟨(invalid_transition_noops { systemPrompt := "p" } 0 0 1 1 0).1 rfl,
   (invalid_transition_noops { systemPrompt := "p", state := .closed }
      0 0 1 1 0).2.1 rfl,
   (invalid_transition_noops { systemPrompt := "p", state := .active }
      0 0 1 1 0).2.2 rfl⟩

/-! ## The response reader on malformed events -/

/-- C2 counterexample: the claim says a `textOutput` event missing its
`content` field is skipped and *subsequent messages are still processed*.
In the code the whole `while` loop sits inside one `try`, so the `KeyError`
ends the read loop: a `completionEnd` following the malformed event is never
processed (`turns_completed` stays 0, `events_received` stays 1), although
the same `completionEnd` alone would be (`turns_completed` becomes 1). -/
theorem reader_malformed_counterexample :
    (processResponses readerCexState
        [.textOutput none, .completionEnd 0 0]).session.metrics.turnsCompleted
      = 0 ∧
    (processResponses readerCexState
        [.completionEnd 0 0]).session.metrics.turnsCompleted = 1 ∧
    (processResponses readerCexState
        [.textOutput none, .completionEnd 0 0]).session.metrics.eventsReceived
      = 1 := by
  decide

/-- C2 (amended): on an active session, a message without the `event` key, an
unrecognised tag, a `usageEvent`, or a `contentStart` with missing fields is
skipped — the received-event counter increments and the loop continues with
the remaining messages; a `textOutput` or `audioOutput` missing `content`
still increments the counter and raises no exception out of the reader, but
the raised `KeyError` is caught by the reader's outer handler and the read
loop terminates, discarding the remaining messages. -/
theorem reader_malformed_spec (st : ReaderState) (rest : List InMsg)
    (hactive : st.session.state = SessionState.active) :
    processResponses st (.noEvent :: rest) =
      processResponses (bumpEvents st) rest ∧
    processResponses st (.usageEvent :: rest) =
      processResponses (bumpEvents st) rest ∧
    processResponses st (.otherEvent :: rest) =
      processResponses (bumpEvents st) rest ∧
    processResponses st (.contentStart none none :: rest) =
      processResponses
        { bumpEvents st with role := none, displayText := false } rest ∧
    processResponses st (.textOutput none :: rest) = bumpEvents st ∧
    processResponses st (.audioOutput none :: rest) = bumpEvents st := by
  have hne : ¬st.session.state ≠ SessionState.active := by simp [hactive]
  refine ⟨?_, ?_, ?_, ?_, ?_, ?_⟩ <;>
    · simp only [processResponses, processMsg]
      rw [if_neg hne]

/-- Witness for `reader_malformed_spec` on a concrete active reader state. -/
theorem reader_malformed_spec_witness :
    readerCexState.session.state = SessionState.active ∧
    (processResponses readerCexState [.noEvent, .usageEvent] =
      processResponses (bumpEvents readerCexState) [.usageEvent] ∧
    processResponses readerCexState [.usageEvent, .usageEvent] =
      processResponses (bumpEvents readerCexState) [.usageEvent] ∧
    processResponses readerCexState [.otherEvent, .usageEvent] =
      processResponses (bumpEvents readerCexState) [.usageEvent] ∧
    processResponses readerCexState [.contentStart none none, .usageEvent] =
      processResponses
        { bumpEvents readerCexState with role := none, displayText := false }
        [.usageEvent] ∧
    processResponses readerCexState [.textOutput none, .usageEvent] =
      bumpEvents readerCexState ∧
    processResponses readerCexState [.audioOutput none, .usageEvent] =
      bumpEvents readerCexState) :=
  ⟨rfl, reader_malformed_spec readerCexState [.usageEvent] rfl⟩

/-! ## The `history` property returns a shallow copy -/

/-- C9 counterexample: the claim says mutating *an entry of* the returned
value leaves the live history unchanged, but `list(self._history)` is a
shallow copy and `ConversationTurn` is a mutable dataclass: setting
`copy[0].text = "changed"` changes what a subsequent read of the live
history observes. -/
theorem history_copy_counterexample :
    historyRead (turnSetText (historyCopy heapCex 0).1
        (((historyCopy heapCex 0).1.lists.getD (historyCopy heapCex 0).2
            []).getD 0 0) "changed") 0 ≠
      historyRead (historyCopy heapCex 0).1 0 := by
  decide

/-- C9 (amended): the returned value is a *fresh list object*, so mutating
the returned list itself — any in-place list mutation `f` applied to the
copy — leaves the live history observably unchanged on a subsequent read;
only the shared entry objects are mutable through the copy. -/
theorem history_copy_list_isolation (h : ObjHeap) (histRef : Nat)
    (hvalid : histRef < h.lists.length) (f : List Nat → List Nat) :
    historyRead (listMutate (historyCopy h histRef).1
        (historyCopy h histRef).2 f) histRef =
      historyRead (historyCopy h histRef).1 histRef ∧
    historyRead (historyCopy h histRef).1 histRef = historyRead h histRef := by
  have key : ∀ (L : List (List Nat)) (w v : List Nat) (i : Nat),
      i < L.length → ((L ++ [w]).set L.length v).getD i [] = L.getD i [] := by
    intro L w v i hi
    rw [List.getD_eq_getElem?_getD, List.getD_eq_getElem?_getD,
      List.getElem?_set_ne (by omega), List.getElem?_append_left hi]
  have key2 : ∀ (L : List (List Nat)) (w : List Nat) (i : Nat),
      i < L.length → (L ++ [w]).getD i [] = L.getD i [] := by
    intro L w i hi
    rw [List.getD_eq_getElem?_getD, List.getD_eq_getElem?_getD,
      List.getElem?_append_left hi]
  constructor
  · unfold historyRead historyCopy listMutate
    dsimp only
    rw [key _ _ _ _ hvalid, key2 _ _ _ hvalid]
  · unfold historyRead historyCopy
    dsimp only
    rw [key2 _ _ _ hvalid]

/-- Witness for `history_copy_list_isolation`: appending a reference to the
copied list on the one-turn heap. -/
theorem history_copy_list_isolation_witness :
    0 < heapCex.lists.length ∧
    (historyRead (listMutate (historyCopy heapCex 0).1
        (historyCopy heapCex 0).2 (fun l => 1 :: l)) 0 =
      historyRead (historyCopy heapCex 0).1 0 ∧
    historyRead (historyCopy heapCex 0).1 0 = historyRead heapCex 0) :=
  ⟨by decide, history_copy_list_isolation heapCex 0 (by decide)
    (fun l => 1 :: l)⟩

end NovaSonic
